import Mathlib

/-!
Verification of the obsidian-mcp-server plugin core against its specification.

The TypeScript source is shallowly embedded: strings become lists of
characters, the host vault becomes explicit structures of pure data and
functions, asynchronous fallible reads become Option, and every tool is a
pure function from its inputs (and a vault state) to a result (and, for
mutating tools, a new vault state).  JavaScript toLowerCase and trim are
modelled for the ASCII range via Char.toLower and an explicit whitespace
predicate; this is faithful for all inputs exercised by the claims.
-/

namespace Mcp

/-- Strings are modelled as lists of characters. -/
abbrev Str := List Char

/-- Convert a Lean string literal to the model type. -/
def toL (s : String) : Str := s.toList

/-- JavaScript whitespace (ASCII part), as used by the trim method. -/
def isJSWhite (c : Char) : Bool :=
  c == ' ' || c == '\t' || c == '\n' || c == '\r' || c == '\x0b' || c == '\x0c'

/-- Boolean prefix test, needle first (models the startsWith method). -/
def isPrefixB : Str → Str → Bool
  | [], _ => true
  | _ :: _, [] => false
  | a :: as, b :: bs => a == b && isPrefixB as bs

/-- Boolean suffix test (models the endsWith method). -/
def isSuffixB (needle hay : Str) : Bool :=
  isPrefixB needle.reverse hay.reverse

/-- Index of the first occurrence of the needle in the haystack; none models a
JavaScript indexOf result of minus one.  As in JavaScript, the empty needle is
found at index 0. -/
def indexOf? (needle : Str) : Str → Option Nat
  | [] => if needle.isEmpty then some 0 else none
  | h :: t => if isPrefixB needle (h :: t) then some 0 else (indexOf? needle t).map (· + 1)

/-- Models the includes method (haystack first). -/
def containsB (hay needle : Str) : Bool :=
  (indexOf? needle hay).isSome

/-- Models the toLowerCase method on the ASCII range. -/
def lower (s : Str) : Str := s.map Char.toLower

/-- Models the trim method: strip whitespace from both ends. -/
def trim (s : Str) : Str :=
  ((s.dropWhile isJSWhite).reverse.dropWhile isJSWhite).reverse

/-- Models the split method with a one-character separator when p tests for
that character; with a whitespace predicate it gives the whitespace-delimited
segments used by the wording of the specification.  As in JavaScript, empty
segments are kept. -/
def splitP (p : Char → Bool) : Str → List Str
  | [] => [[]]
  | h :: t =>
    if p h then [] :: splitP p t
    else
      match splitP p t with
      | [] => [[h]]
      | w :: ws => (h :: w) :: ws

/-- Fuel-driven helper counting non-overlapping left-to-right occurrences of a
nonempty needle, exactly as a global regular-expression scan does: on a match
the scan resumes after the matched text.  The fuel is always instantiated with
the haystack length, which the scan never exceeds. -/
def countOccAux (needle : Str) : Nat → Str → Nat
  | 0, _ => 0
  | _, [] => 0
  | fuel + 1, h :: t =>
    if isPrefixB needle (h :: t) then
      1 + countOccAux needle fuel (t.drop (needle.length - 1))
    else
      countOccAux needle fuel t

/-- Number of non-overlapping matches of the needle in the haystack, as
counted by a match call with a global regex built from the escaped needle.
For the empty needle a global regex matches once at every position including
the end. -/
def countOcc (needle hay : Str) : Nat :=
  if needle.isEmpty then hay.length + 1 else countOccAux needle hay.length hay

/-- The highlighting step for an empty search term: a global regex for the
empty string matches before every character and at the end, inserting the four
marker characters each time. -/
def emptyWrap : Str → Str
  | [] => toL "****"
  | h :: t => toL "****" ++ h :: emptyWrap t

/-- Fuel-driven helper for the highlighting step: lneedle is the lowercased
search term; matching is case-insensitive (the scan lowercases the haystack
for comparison) but the original characters are emitted between the double
asterisk markers, exactly as the case-insensitive global regex with the
dollar-one replacement does. -/
def boldifyAux (lneedle : Str) : Nat → Str → Str
  | 0, s => s
  | _, [] => []
  | fuel + 1, h :: t =>
    if isPrefixB lneedle (lower (h :: t)) then
      toL "**" ++ (h :: t).take lneedle.length ++ toL "**" ++
        boldifyAux lneedle fuel (t.drop (lneedle.length - 1))
    else
      h :: boldifyAux lneedle fuel t

/-- Models the highlighting replace call of extractSnippet: wrap every
non-overlapping case-insensitive occurrence of the term in bold markers (the
escapeRegex call in the source makes the term match literally). -/
def boldify (term s : Str) : Str :=
  if term.isEmpty then emptyWrap s else boldifyAux (lower term) s.length s

/-- The snippet text before highlighting (the local variable named snippet in
extractSnippet after the ellipses are attached, common.ts lines 150-164):
either the window around the first case-insensitive occurrence of the term, or
the trimmed beginning of the content when the term does not occur. -/
def snippetWindow (content term : Str) (maxLength : Nat) : Str :=
  match indexOf? (lower term) (lower content) with
  | none =>
    trim (content.take maxLength) ++ (if maxLength < content.length then toL "..." else [])
  | some index =>
    let halfLength := maxLength / 2
    let start := index - halfLength
    let stop := min content.length (start + maxLength)
    let snippet := (content.drop start).take (stop - start)
    (if 0 < start then toL "..." else []) ++ snippet ++
      (if stop < content.length then toL "..." else [])

/-- The function extractSnippet from common.ts: window the content around the
first case-insensitive occurrence of the term, attach ellipses, highlight
every occurrence inside the window, and trim; without an occurrence return the
trimmed, possibly ellipsized beginning. -/
def extractSnippet (content term : Str) (maxLength : Nat) : Str :=
  match indexOf? (lower term) (lower content) with
  | none => snippetWindow content term maxLength
  | some _ => trim (boldify term (snippetWindow content term maxLength))

/-- The function removeFrontmatter from common.ts: strip the leading block
matched by the lazy regex (three dashes, newline, minimal body, newline, three
dashes, newline); otherwise return the content unchanged. -/
def removeFrontmatter (content : Str) : Str :=
  if isPrefixB (toL "---\n") content then
    match indexOf? (toL "\n---\n") (content.drop 4) with
    | some j => content.drop (4 + j + 5)
    | none => content
  else content

/-- The function extractFrontmatter from common.ts: the captured body of the
same lazy regex, or none when the pattern does not match. -/
def extractFrontmatter (content : Str) : Option Str :=
  if isPrefixB (toL "---\n") content then
    (indexOf? (toL "\n---\n") (content.drop 4)).map (fun j => (content.drop 4).take j)
  else none

/-- Whether the frontmatter regex matches at all (the success condition shared
by removeFrontmatter and extractFrontmatter). -/
def hasFrontmatter (content : Str) : Bool :=
  isPrefixB (toL "---\n") content && (indexOf? (toL "\n---\n") (content.drop 4)).isSome

/-- The drive-letter test of validatePath (regex of one ASCII letter followed
by a colon, anchored at the start). -/
def driveLetter : Str → Bool
  | c1 :: c2 :: _ => c1.isAlpha && c2 == ':'
  | _ => false

/-- The function validatePath from common.ts: reject absolute paths, Windows
drive letters and any occurrence of two consecutive dots. -/
def validatePath (path : Str) : Bool :=
  !(isPrefixB (toL "/") path) && !(driveLetter path) && !(containsB path (toL ".."))

/-- Error codes produced by the tool layer (section 6 of the specification). -/
inductive ErrCode
  | MISSING_PARAMETER
  | INVALID_PATH
  | NOTE_NOT_FOUND
  | INVALID_PARAMETER
  | FILE_EXISTS
  | PATH_IS_FOLDER
  | FOLDER_CREATE_ERROR
  | UNSUPPORTED_FILE_TYPE
  deriving DecidableEq, Repr

/-- The error part of the response envelope (code plus message; suggestions
are dropped since no claim depends on them). -/
structure ErrResp where
  code : ErrCode
  message : Str
  deriving DecidableEq, Repr

deriving instance DecidableEq for Except

/-- A markdown file as the host vault presents it to searchNotes: path,
basename, creation and modification timestamps, byte size. -/
structure MDFile where
  path : Str
  basename : Str
  ctime : Nat
  mtime : Nat
  size : Nat
  deriving DecidableEq, Repr

/-- The host state consumed by searchNotes: the markdown file list, the
fallible adapter read, and the tag cache per path. -/
structure SearchVault where
  files : List MDFile
  read : Str → Option Str
  tags : Str → List Str

/-- The title-matching tiers of searchNotes (search.ts lines 87-94), on
already-lowercased inputs: exact match, containment, then the dead word-split
tier. -/
def titleTierScore (titleLower queryLower : Str) : Nat :=
  if titleLower = queryLower then 100
  else if containsB titleLower queryLower then 50
  else if (splitP (fun c => c == ' ') titleLower).any (fun w => containsB w queryLower) then 25
  else 0

/-- The full relevance score computed by searchNotes for one note (title tier
plus capped content-occurrence bonus, added only when the content matches). -/
def noteScore (basename content query : Str) : Nat :=
  titleTierScore (lower basename) (lower query) +
    (if 0 < countOcc (lower query) (lower content) then
      min (countOcc (lower query) (lower content) * 5) 50
    else 0)

/-- The scoring formula exactly as the specification words it (claim C4):
tiers on the lowercased basename with a whitespace-delimited word tier, plus
the capped occurrence bonus added unconditionally. -/
def specScore (basename content query : Str) : Nat :=
  (if lower basename = lower query then 100
   else if containsB (lower basename) (lower query) then 50
   else if (splitP isJSWhite (lower basename)).any (fun w => containsB w (lower query)) then 25
   else 0) +
  min (countOcc (lower query) (lower content) * 5) 50

/-- An internal search result record, including the internal-only score. -/
structure SearchResult where
  path : Str
  title : Str
  snippet : Str
  created : Nat
  modified : Nat
  size : Nat
  score : Nat
  deriving DecidableEq, Repr

/-- A search result as emitted to the caller, with the score stripped. -/
structure SearchResultOut where
  path : Str
  title : Str
  snippet : Str
  created : Nat
  modified : Nat
  size : Nat
  deriving DecidableEq, Repr

/-- Drop the internal score field before emitting a result. -/
def stripScore (r : SearchResult) : SearchResultOut :=
  ⟨r.path, r.title, r.snippet, r.created, r.modified, r.size⟩

/-- Sort keys accepted by searchNotes. -/
inductive SortBy
  | relevance
  | modified
  | created
  | title
  deriving DecidableEq, Repr

/-- Options of searchNotes with their defaults. -/
structure SearchOpts where
  folder : Str := []
  tag : Str := []
  limit : Nat := 10
  sort_by : SortBy := .relevance

/-- Insert one element into a list kept in descending key order. -/
def insertKeyDesc (key : SearchResult → Nat) (x : SearchResult) :
    List SearchResult → List SearchResult
  | [] => [x]
  | y :: ys => if key y ≤ key x then x :: y :: ys else y :: insertKeyDesc key x ys

/-- Descending sort by a numeric key.  The source sorts with a comparator
subtracting scores; tie order is unspecified there, so any descending sort is
a faithful model. -/
def sortByKeyDesc (key : SearchResult → Nat) : List SearchResult → List SearchResult
  | [] => []
  | x :: xs => insertKeyDesc key x (sortByKeyDesc key xs)

/-- Code-point lexicographic order on strings, modelling localeCompare for the
title sort (locale effects are outside the model; no claim touches them). -/
def strLeB : Str → Str → Bool
  | [], _ => true
  | _ :: _, [] => false
  | c :: cs, d :: ds => if c == d then strLeB cs ds else decide (c < d)

/-- Insert one element into a list kept in ascending title order. -/
def insertTitleAsc (x : SearchResult) : List SearchResult → List SearchResult
  | [] => [x]
  | y :: ys => if strLeB x.title y.title then x :: y :: ys else y :: insertTitleAsc x ys

/-- Ascending sort by title. -/
def sortByTitleAsc : List SearchResult → List SearchResult
  | [] => []
  | x :: xs => insertTitleAsc x (sortByTitleAsc xs)

/-- The sort dispatch of searchNotes (search.ts lines 139-152). -/
def sortResults : SortBy → List SearchResult → List SearchResult
  | .relevance, l => sortByKeyDesc (fun r => r.score) l
  | .modified, l => sortByKeyDesc (fun r => r.modified) l
  | .created, l => sortByKeyDesc (fun r => r.created) l
  | .title, l => sortByTitleAsc l

/-- The per-file body of the searchNotes loop (search.ts lines 63-136): apply
the folder and tag filters, score the title, read the content (a failed read
skips the file), count occurrences, build the snippet, and keep the file only
when something matched. -/
def processFile (v : SearchVault) (query : Str) (opts : SearchOpts) (f : MDFile) :
    Option SearchResult :=
  if !opts.folder.isEmpty && !(isPrefixB opts.folder f.path) then none
  else if !opts.tag.isEmpty &&
      !((v.tags f.path).any (fun t =>
        t == (if isPrefixB (toL "#") opts.tag then opts.tag else '#' :: opts.tag) ||
        t == opts.tag || t == '#' :: opts.tag)) then none
  else
    let queryLower := lower query
    let titleLower := lower f.basename
    let titleScore := titleTierScore titleLower queryLower
    match v.read f.path with
    | none => none
    | some content =>
      let occ := countOcc queryLower (lower content)
      let contentMatch := decide (0 < occ)
      let score := titleScore + (if contentMatch then min (occ * 5) 50 else 0)
      let snippet :=
        if contentMatch then extractSnippet content query 200
        else if 0 < score then
          trim (content.take 200) ++ (if 200 < content.length then toL "..." else [])
        else []
      if 0 < score || contentMatch then
        some ⟨f.path, f.basename, snippet, f.ctime, f.mtime, f.size, score⟩
      else none

/-- The success payload of searchNotes (filters echo omitted; the internal
results keep their loop order until sorted). -/
structure SearchResponse where
  query : Str
  total_matches : Nat
  returned_count : Nat
  results : List SearchResultOut
  deriving DecidableEq, Repr

/-- The function searchNotes from search.ts: validate the query, process every
markdown file, sort, apply the limit, and strip the internal score. -/
def searchNotes (v : SearchVault) (query : Str) (opts : SearchOpts) :
    Except ErrResp SearchResponse :=
  if query.isEmpty then .error ⟨.MISSING_PARAMETER, toL "Query parameter is required"⟩
  else
    let results := v.files.filterMap (processFile v query opts)
    let limited := (sortResults opts.sort_by results).take opts.limit
    .ok ⟨query, results.length, limited.length, limited.map stripScore⟩

/-- A traversal output record of get-related-notes.ts. -/
structure RelatedNote where
  path : Str
  title : Str
  snippet : Option Str
  deriving DecidableEq, Repr

/-- The host state consumed by getRelatedNotes: existing file paths, the
basename function, the per-path link and embed tokens of the metadata cache,
the link resolution function, the global resolved-link table, and the fallible
adapter read. -/
structure LinkVault where
  files : List Str
  basename : Str → Str
  cacheLinks : Str → List Str
  resolve : Str → Str → Option Str
  resolvedLinks : List (Str × List Str)
  read : Str → Option Str

/-- The function getFileSnippet from get-related-notes.ts: read the file,
strip frontmatter, truncate and trim, appending an ellipsis when truncated; a
read failure yields the placeholder string. -/
def getFileSnippet (v : LinkVault) (path : Str) (maxLength : Nat) : Str :=
  match v.read path with
  | none => toL "[Error reading file]"
  | some content =>
    let w := removeFrontmatter content
    trim (w.take maxLength) ++ (if maxLength < w.length then toL "..." else [])

/-- The loop of getOutlinks over the link and embed tokens: resolve each
token, deduplicate by resolved destination path with the local seen set, and
emit a record (with an optional snippet) per new destination. -/
def outlinksGo (v : LinkVault) (src : Str) (incl : Bool) (ml : Nat) :
    List Str → List Str → List RelatedNote
  | [], _ => []
  | tok :: rest, seen =>
    match v.resolve tok src with
    | none => outlinksGo v src incl ml rest seen
    | some dest =>
      if dest ∈ seen then outlinksGo v src incl ml rest seen
      else
        ⟨dest, v.basename dest, if incl then some (getFileSnippet v dest ml) else none⟩ ::
          outlinksGo v src incl ml rest (dest :: seen)

/-- The function getOutlinks from get-related-notes.ts (lines 160-199). -/
def getOutlinks (v : LinkVault) (path : Str) (incl : Bool) (ml : Nat) : List RelatedNote :=
  outlinksGo v path incl ml (v.cacheLinks path) []

/-- The loop of getBacklinks over the resolved-link table: a source entry
whose destination set contains the target is marked seen and emitted when it
still names an existing file. -/
def backlinksGo (v : LinkVault) (target : Str) (incl : Bool) (ml : Nat) :
    List (Str × List Str) → List Str → List RelatedNote
  | [], _ => []
  | (src, dests) :: rest, seen =>
    if target ∈ dests ∧ src ∉ seen then
      if src ∈ v.files then
        ⟨src, v.basename src, if incl then some (getFileSnippet v src ml) else none⟩ ::
          backlinksGo v target incl ml rest (src :: seen)
      else backlinksGo v target incl ml rest (src :: seen)
    else backlinksGo v target incl ml rest seen

/-- The function getBacklinks from get-related-notes.ts (lines 204-236). -/
def getBacklinks (v : LinkVault) (path : Str) (incl : Bool) (ml : Nat) : List RelatedNote :=
  backlinksGo v path incl ml v.resolvedLinks []

/-- Traversal direction of getTransitiveLinks. -/
inductive Direction
  | out
  | back
  deriving DecidableEq, Repr

/-- The direction dispatch inside the getTransitiveLinks loop (the ternary at
lines 264-266): neighbors of one path in the requested direction. -/
def neighborLinks (v : LinkVault) (dir : Direction) (incl : Bool) (ml : Nat)
    (p : Str) : List RelatedNote :=
  match dir with
  | .out => getOutlinks v p incl ml
  | .back => getBacklinks v p incl ml

/-- One level of getTransitiveLinks (the loop over startPaths, lines 257-274):
paths already visited are skipped, a processed path is added to the visited
set, and its neighbors that are not yet visited are emitted and queued -
without being added to the visited set themselves.  Returns the emitted
records, the next frontier, and the updated visited set. -/
def tlStep (v : LinkVault) (dir : Direction) (incl : Bool) (ml : Nat) :
    List Str → List Str → List RelatedNote × List Str × List Str
  | [], visited => ([], [], visited)
  | p :: rest, visited =>
    if p ∈ visited then tlStep v dir incl ml rest visited
    else
      ((neighborLinks v dir incl ml p).filter (fun l => decide (l.path ∉ p :: visited)) ++
          (tlStep v dir incl ml rest (p :: visited)).1,
       ((neighborLinks v dir incl ml p).filter
          (fun l => decide (l.path ∉ p :: visited))).map RelatedNote.path ++
          (tlStep v dir incl ml rest (p :: visited)).2.1,
       (tlStep v dir incl ml rest (p :: visited)).2.2)

/-- The function getTransitiveLinks from get-related-notes.ts (lines 241-291):
process one level, then recurse on the new frontier while more than one level
of remaining depth is left.  The recursion structurally decreases
remainingDepth, exactly as the source decrements it.  The visited set is
threaded through and returned because the source mutates one shared set. -/
def getTransitiveLinks (v : LinkVault) (dir : Direction) (incl : Bool) (ml : Nat) :
    Nat → List Str → List Str → List RelatedNote × List Str
  | 0, _, visited => ([], visited)
  | d + 1, startPaths, visited =>
    if startPaths.isEmpty then ([], visited)
    else if 0 < d then
      ((tlStep v dir incl ml startPaths visited).1 ++
          (getTransitiveLinks v dir incl ml d (tlStep v dir incl ml startPaths visited).2.1
            (tlStep v dir incl ml startPaths visited).2.2).1,
       (getTransitiveLinks v dir incl ml d (tlStep v dir incl ml startPaths visited).2.1
          (tlStep v dir incl ml startPaths visited).2.2).2)
    else ((tlStep v dir incl ml startPaths visited).1,
      (tlStep v dir incl ml startPaths visited).2.2)

/-- Options of getRelatedNotes with their defaults.  The depth is modelled as
a number; the string-to-number coercion of the source is outside the model. -/
structure GRNOptions where
  depth : Nat := 1
  include_snippets : Bool := false
  max_snippet_length : Nat := 150
  deriving DecidableEq, Repr

/-- The success payload of getRelatedNotes.  When depth is 1 the source omits
the transitive fields; that is modelled by empty lists. -/
structure RelatedResponse where
  path : Str
  depth : Nat
  direct_outlinks : List RelatedNote
  direct_backlinks : List RelatedNote
  transitive_outlinks : List RelatedNote
  transitive_backlinks : List RelatedNote
  deriving DecidableEq, Repr

/-- The function getRelatedNotes from get-related-notes.ts (lines 30-155):
validate the path and depth, collect direct links in both directions, and for
depth above one expand transitively in each direction with one shared visited
set seeded with only the origin path. -/
def getRelatedNotes (v : LinkVault) (path : Str) (opts : GRNOptions) :
    Except ErrResp RelatedResponse :=
  if path.isEmpty then .error ⟨.MISSING_PARAMETER, toL "Path parameter is required"⟩
  else if !(validatePath path) then .error ⟨.INVALID_PATH, toL "invalid path"⟩
  else if path ∉ v.files then .error ⟨.NOTE_NOT_FOUND, toL "note not found"⟩
  else if opts.depth < 1 ∨ 3 < opts.depth then
    .error ⟨.INVALID_PARAMETER, toL "Depth must be a number between 1 and 3"⟩
  else if 1 < opts.depth then
    .ok ⟨path, opts.depth,
      getOutlinks v path opts.include_snippets opts.max_snippet_length,
      getBacklinks v path opts.include_snippets opts.max_snippet_length,
      (getTransitiveLinks v .out opts.include_snippets opts.max_snippet_length
        (opts.depth - 1)
        ((getOutlinks v path opts.include_snippets opts.max_snippet_length).map
          RelatedNote.path) [path]).1,
      (getTransitiveLinks v .back opts.include_snippets opts.max_snippet_length
        (opts.depth - 1)
        ((getBacklinks v path opts.include_snippets opts.max_snippet_length).map
          RelatedNote.path)
        (getTransitiveLinks v .out opts.include_snippets opts.max_snippet_length
          (opts.depth - 1)
          ((getOutlinks v path opts.include_snippets opts.max_snippet_length).map
            RelatedNote.path) [path]).2).1⟩
  else
    .ok ⟨path, opts.depth,
      getOutlinks v path opts.include_snippets opts.max_snippet_length,
      getBacklinks v path opts.include_snippets opts.max_snippet_length, [], []⟩

/-- All note paths of one getRelatedNotes response, origin first: the union
whose distinctness claim C1 asserts. -/
def allPathsResp (r : RelatedResponse) : List Str :=
  r.path :: (r.direct_outlinks ++ r.direct_backlinks ++
    r.transitive_outlinks ++ r.transitive_backlinks).map RelatedNote.path

/-- Concrete link vault with a single self-referential note: a.md links only
to itself. -/
def vSelf : LinkVault where
  files := [toL "a.md"]
  basename := fun p => p
  cacheLinks := fun p => if p = toL "a.md" then [toL "a"] else []
  resolve := fun tok _ => if tok = toL "a" then some (toL "a.md") else none
  resolvedLinks := [(toL "a.md", [toL "a.md"])]
  read := fun _ => none

/-- The depth-1 response on the self-loop vault. -/
def rSelf : RelatedResponse :=
  ⟨toL "a.md", 1,
    [⟨toL "a.md", toL "a.md", none⟩],
    [⟨toL "a.md", toL "a.md", none⟩],
    [], []⟩

/-- Concrete link vault where o.md links to a.md and b.md, and a.md links to
b.md, so b.md is both a direct and a transitive outlink of o.md. -/
def vDup : LinkVault where
  files := [toL "o.md", toL "a.md", toL "b.md"]
  basename := fun p => p
  cacheLinks := fun p =>
    if p = toL "o.md" then [toL "a", toL "b"]
    else if p = toL "a.md" then [toL "b"]
    else []
  resolve := fun tok _ =>
    if tok = toL "a" then some (toL "a.md")
    else if tok = toL "b" then some (toL "b.md")
    else none
  resolvedLinks := [(toL "o.md", [toL "a.md", toL "b.md"]), (toL "a.md", [toL "b.md"])]
  read := fun _ => none

/-- The depth-2 response on the duplicate vault. -/
def rDup : RelatedResponse :=
  ⟨toL "o.md", 2,
    [⟨toL "a.md", toL "a.md", none⟩, ⟨toL "b.md", toL "b.md", none⟩],
    [],
    [⟨toL "b.md", toL "b.md", none⟩],
    []⟩

/-- A vault entry is a file with content or a folder (the tagged variant the
design notes ask for in place of instanceof checks). -/
inductive FsEntry
  | file (content : Str)
  | folder
  deriving DecidableEq, Repr

/-- The vault file system as the mutation tools see it: an association list
from path to entry, first match wins. -/
abbrev FS := List (Str × FsEntry)

/-- Models getAbstractFileByPath: the first entry at the path, if any. -/
def lookupFS : FS → Str → Option FsEntry
  | [], _ => none
  | (q, e) :: rest, p => if q = p then some e else lookupFS rest p

/-- Models adapter write and vault modify on an existing path: replace the
entry content in place. -/
def writeFS (fs : FS) (p : Str) (c : Str) : FS :=
  fs.map (fun e => if e.1 = p then (p, FsEntry.file c) else e)

/-- Append positions accepted by append-to-note.ts. -/
inductive AppendPosition
  | start
  | endPos
  | afterFrontmatter
  deriving DecidableEq, Repr

/-- Options of appendToNote with their defaults. -/
structure AppendOpts where
  position : AppendPosition := .endPos
  ensure_newline : Bool := true
  deriving DecidableEq, Repr

/-- The splice performed by appendToNote (the switch at lines 143-181 of
append-to-note.ts): at the start an ensured newline contributes a blank line
of two newline characters; after frontmatter the block is reconstructed and
one newline is ensured; at the end a separating newline is ensured on both
sides. -/
def spliceContent (current content : Str) (position : AppendPosition)
    (ensureNewline : Bool) : Str :=
  match position with
  | .start => content ++ (if ensureNewline then toL "\n\n" else []) ++ current
  | .afterFrontmatter =>
    match extractFrontmatter current with
    | some fm =>
      let block := toL "---\n" ++ fm ++ toL "\n---\n"
      block ++ content ++ (if ensureNewline then toL "\n" else []) ++
        current.drop block.length
    | none => content ++ (if ensureNewline then toL "\n\n" else []) ++ current
  | .endPos =>
    let sep :=
      if ensureNewline then
        (if isSuffixB (toL "\n") current then [] else toL "\n") ++
          (if isPrefixB (toL "\n") content then [] else toL "\n")
      else []
    current ++ sep ++ content

/-- The success payload of appendToNote (content preview omitted). -/
structure AppendOk where
  path : Str
  appended_length : Nat
  original_length : Nat
  new_length : Nat
  deriving DecidableEq, Repr

/-- The function appendToNote from append-to-note.ts (lines 78-216): validate
the path and content parameters, validate the path shape, require an existing
file, splice, and write back. -/
def appendToNote (fs : FS) (path content : Str) (opts : AppendOpts) :
    Except ErrResp AppendOk × FS :=
  if path.isEmpty then
    (.error ⟨.MISSING_PARAMETER, toL "Path parameter is required"⟩, fs)
  else if content.isEmpty then
    (.error ⟨.MISSING_PARAMETER, toL "Content parameter is required"⟩, fs)
  else if !(validatePath path) then
    (.error ⟨.INVALID_PATH, toL "invalid path"⟩, fs)
  else
    match lookupFS fs path with
    | some (.file current) =>
      let newContent := spliceContent current content opts.position opts.ensure_newline
      (.ok ⟨path, content.length, current.length, newContent.length⟩,
        writeFS fs path newContent)
    | _ => (.error ⟨.NOTE_NOT_FOUND, toL "note not found"⟩, fs)

/-- Options of createNote with their defaults (open_after only opens an
editor pane and is outside the model). -/
structure CreateOpts where
  folder : Str := []
  overwrite : Bool := false
  deriving DecidableEq, Repr

/-- Filename normalization of createNote: ensure a trailing md extension. -/
def normalizeFilename (filename : Str) : Str :=
  if isSuffixB (toL ".md") filename then filename else filename ++ toL ".md"

/-- Models the folder regex replace of createNote: remove one trailing
slash. -/
def stripTrailingSlash (f : Str) : Str :=
  if isSuffixB (toL "/") f then f.dropLast else f

/-- Full path composition of createNote (lines 60-65). -/
def composeFullPath (folder filename : Str) : Str :=
  if folder.isEmpty then normalizeFilename filename
  else stripTrailingSlash folder ++ '/' :: normalizeFilename filename

/-- The success payload of createNote. -/
structure CreateOk where
  path : Str
  size : Nat
  overwritten : Bool
  deriving DecidableEq, Repr

/-- The function createNote from create-note.ts (lines 23-180): validate the
filename (the content null check of the source cannot fire for a string
argument, so an empty content string passes), compose and validate the path,
fail with FILE_EXISTS on an existing path unless overwrite is set, overwrite
only files, otherwise ensure the folder and create the note. -/
def createNote (fs : FS) (filename content : Str) (opts : CreateOpts) :
    Except ErrResp CreateOk × FS :=
  if filename.isEmpty then
    (.error ⟨.MISSING_PARAMETER, toL "Filename parameter is required"⟩, fs)
  else
    let fullPath := composeFullPath opts.folder filename
    if !(validatePath fullPath) then
      (.error ⟨.INVALID_PATH, toL "invalid path"⟩, fs)
    else
      match lookupFS fs fullPath with
      | some e =>
        if !opts.overwrite then
          (.error ⟨.FILE_EXISTS, toL "File already exists"⟩, fs)
        else
          match e with
          | .file _ => (.ok ⟨fullPath, content.length, true⟩, writeFS fs fullPath content)
          | .folder => (.error ⟨.PATH_IS_FOLDER, toL "Path exists but is a folder"⟩, fs)
      | none =>
        if opts.folder.isEmpty then
          (.ok ⟨fullPath, content.length, false⟩, (fullPath, FsEntry.file content) :: fs)
        else
          match lookupFS fs opts.folder with
          | none =>
            (.ok ⟨fullPath, content.length, false⟩,
              (fullPath, FsEntry.file content) :: (opts.folder, FsEntry.folder) :: fs)
          | some .folder =>
            (.ok ⟨fullPath, content.length, false⟩, (fullPath, FsEntry.file content) :: fs)
          | some (.file _) =>
            (.error ⟨.FOLDER_CREATE_ERROR, toL "Path exists but is not a folder"⟩, fs)

/-- Extension of a path as the host presents it: the suffix after the final
dot of the final path segment, empty when the segment has no dot. -/
def extensionOf (p : Str) : Str :=
  let name := (p.reverse.takeWhile (fun c => c != '/')).reverse
  if name.contains '.' then (name.reverse.takeWhile (fun c => c != '.')).reverse
  else []

/-- The extension whitelist of isTextFile in common.ts. -/
def textExtensions : List Str :=
  [toL "md", toL "txt", toL "json", toL "yaml", toL "yml", toL "csv", toL "html", toL "xml"]

/-- Options of getNote relevant to its content field, with defaults. -/
structure GetOpts where
  preview : Bool := false
  max_content_length : Nat := 50000
  deriving DecidableEq, Repr

/-- The content-bearing part of the getNote success payload (metadata echo
omitted; no claim depends on it). -/
structure GetOk where
  path : Str
  content : Str
  is_preview : Bool
  deriving DecidableEq, Repr

/-- The function getNote from get-note.ts (lines 28-165): validate the path,
require an existing text file, strip frontmatter from the content, and apply
the preview and oversize truncation rules. -/
def getNote (fs : FS) (path : Str) (opts : GetOpts) : Except ErrResp GetOk :=
  if path.isEmpty then .error ⟨.MISSING_PARAMETER, toL "Path parameter is required"⟩
  else if !(validatePath path) then .error ⟨.INVALID_PATH, toL "invalid path"⟩
  else
    match lookupFS fs path with
    | some (.file content) =>
      if !(textExtensions.contains (lower (extensionOf path))) then
        .error ⟨.UNSUPPORTED_FILE_TYPE, toL "File is not a text file"⟩
      else
        let woFM := removeFrontmatter content
        if opts.preview ∧ 500 < woFM.length then
          .ok ⟨path, woFM.take 500 ++
            toL "\n\n... (preview mode - use preview:false for full content)", true⟩
        else if ¬opts.preview ∧ opts.max_content_length < woFM.length then
          .ok ⟨path, woFM.take 500 ++
            toL "\n\n... (file too large - automatically truncated)", true⟩
        else
          .ok ⟨path, woFM, opts.preview⟩
    | _ => .error ⟨.NOTE_NOT_FOUND, toL "note not found"⟩

/-- Concrete file system with one note whose content is baz. -/
def fsBaz : FS := [(toL "n.md", FsEntry.file (toL "baz"))]

/-- Concrete file system with an existing note foo.md whose content is x. -/
def fsFoo : FS := [(toL "foo.md", FsEntry.file (toL "x"))]

/-- Concrete file system where the path foo.md is a folder. -/
def fsFooFolder : FS := [(toL "foo.md", FsEntry.folder)]

/-- A markdown file record used by witnesses. -/
def mdX : MDFile := ⟨toL "x.md", toL "x", 0, 0, 0⟩

/-- The error code of a tool result, if it is an error. -/
def errCodeOf {α : Type} (r : Except ErrResp α) : Option ErrCode :=
  match r with
  | .error e => some e.code
  | .ok _ => none

end Mcp

namespace Mcp

theorem length_dropWhile_le (p : Char → Bool) (l : List Char) :
    (l.dropWhile p).length ≤ l.length := by
  induction l with
  | nil => simp [List.dropWhile]
  | cons h t ih =>
    simp only [List.dropWhile]
    split
    · exact Nat.le_succ_of_le ih
    · exact Nat.le_refl _

theorem trim_length_le (s : Str) : (trim s).length ≤ s.length := by
  unfold trim
  calc ((s.dropWhile isJSWhite).reverse.dropWhile isJSWhite).reverse.length
      = ((s.dropWhile isJSWhite).reverse.dropWhile isJSWhite).length := List.length_reverse _
    _ ≤ (s.dropWhile isJSWhite).reverse.length := length_dropWhile_le _ _
    _ = (s.dropWhile isJSWhite).length := List.length_reverse _
    _ ≤ s.length := length_dropWhile_le _ _

theorem isPrefixB_length_le (n h : Str) (hp : isPrefixB n h = true) : n.length ≤ h.length := by
  induction n generalizing h with
  | nil => simp
  | cons a as ih =>
    cases h with
    | nil => simp [isPrefixB] at hp
    | cons b bs =>
      simp only [isPrefixB, Bool.and_eq_true] at hp
      simpa using ih bs hp.2

end Mcp

namespace Mcp

theorem emptyWrap_length (s : Str) :
    (emptyWrap s).length = s.length + 4 * (s.length + 1) := by
  induction s with
  | nil => rfl
  | cons h t ih =>
    simp only [emptyWrap, List.length_append, List.length_cons, ih]
    have : (toL "****").length = 4 := rfl
    omega

theorem boldifyAux_length_le (lneedle : Str) (hne : lneedle ≠ []) :
    ∀ (fuel : Nat) (s : Str), s.length ≤ fuel →
      (boldifyAux lneedle fuel s).length ≤ s.length + 4 * countOccAux lneedle fuel (lower s) := by
  intro fuel
  induction fuel with
  | zero =>
    intro s hs
    have hnil : s = [] := List.length_eq_zero.mp (Nat.le_zero.mp hs)
    subst hnil
    simp [boldifyAux, countOccAux]
  | succ fuel ih =>
    intro s hs
    cases s with
    | nil => simp [boldifyAux, countOccAux, lower]
    | cons h t =>
      have hlow : lower (h :: t) = Char.toLower h :: lower t := rfl
      by_cases hc : isPrefixB lneedle (lower (h :: t)) = true
      · have hlen : lneedle.length ≤ t.length + 1 := by
          have h1 := isPrefixB_length_le _ _ hc
          simpa [lower] using h1
        have hL1 : 1 ≤ lneedle.length := by
          cases lneedle with
          | nil => exact absurd rfl hne
          | cons a as => simp
        have hb : boldifyAux lneedle (fuel + 1) (h :: t) =
            toL "**" ++ (h :: t).take lneedle.length ++ toL "**" ++
              boldifyAux lneedle fuel (t.drop (lneedle.length - 1)) := by
          rw [boldifyAux, if_pos hc]
        have hcnt : countOccAux lneedle (fuel + 1) (lower (h :: t)) =
            1 + countOccAux lneedle fuel ((lower t).drop (lneedle.length - 1)) := by
          rw [hlow, countOccAux, if_pos (by rw [← hlow]; exact hc)]
        have hmap : (lower t).drop (lneedle.length - 1) = lower (t.drop (lneedle.length - 1)) := by
          simp [lower, List.map_drop]
        have hdroplen : (t.drop (lneedle.length - 1)).length ≤ fuel := by
          simp only [List.length_drop]
          simp only [List.length_cons] at hs
          omega
        have hrec := ih (t.drop (lneedle.length - 1)) hdroplen
        rw [hb, hcnt, hmap]
        simp only [List.length_append, List.length_take, List.length_cons,
          List.length_drop] at hrec ⊢
        have h2 : (toL "**").length = 2 := rfl
        omega
      · have hb : boldifyAux lneedle (fuel + 1) (h :: t) =
            h :: boldifyAux lneedle fuel t := by
          rw [boldifyAux, if_neg hc]
        have hcnt : countOccAux lneedle (fuel + 1) (lower (h :: t)) =
            countOccAux lneedle fuel (lower t) := by
          rw [hlow, countOccAux, if_neg (by rw [← hlow]; exact hc)]
        have hrec := ih t (by simp only [List.length_cons] at hs; omega)
        rw [hb, hcnt]
        simp only [List.length_cons]
        omega

theorem boldify_length_le (term s : Str) :
    (boldify term s).length ≤ s.length + 4 * countOcc (lower term) (lower s) := by
  by_cases h : term.isEmpty = true
  · have ht : term = [] := by cases term <;> simp_all [List.isEmpty]
    subst ht
    have hb : boldify ([] : Str) s = emptyWrap s := rfl
    have hc : countOcc (lower ([] : Str)) (lower s) = (lower s).length + 1 := rfl
    rw [hb, hc]
    simp [emptyWrap_length, lower]
  · have ht : term ≠ [] := by cases term <;> simp_all [List.isEmpty]
    have hlt : lower term ≠ [] := by
      simp [lower, List.map_eq_nil_iff]
      exact ht
    rw [boldify, if_neg h]
    have := boldifyAux_length_le (lower term) hlt s.length s (Nat.le_refl _)
    rw [countOcc, if_neg (by cases hl : lower term <;> simp_all [List.isEmpty])]
    have hlen : (lower s).length = s.length := by simp [lower]
    rw [hlen]
    exact this

end Mcp

namespace Mcp

theorem snippetWindow_length_le (c t : Str) (n : Nat) :
    (snippetWindow c t n).length ≤ n + 6 := by
  unfold snippetWindow
  cases hidx : indexOf? (lower t) (lower c) with
  | none =>
    simp only [List.length_append]
    have h1 := trim_length_le (c.take n)
    have h2 : (c.take n).length = min n c.length := List.length_take n c
    have h3 : (if n < c.length then toL "..." else ([] : Str)).length ≤ 3 := by
      split
      · exact Nat.le_refl 3
      · exact Nat.zero_le 3
    have h4 : min n c.length ≤ n := Nat.min_le_left n c.length
    omega
  | some index =>
    simp only [List.length_append, List.length_take, List.length_drop]
    have h1 : (if 0 < index - n / 2 then toL "..." else ([] : Str)).length ≤ 3 := by
      split
      · exact Nat.le_refl 3
      · exact Nat.zero_le 3
    have h2 : (if min c.length (index - n / 2 + n) < c.length then toL "..."
        else ([] : Str)).length ≤ 3 := by
      split
      · exact Nat.le_refl 3
      · exact Nat.zero_le 3
    have h3 : min c.length (index - n / 2 + n) ≤ index - n / 2 + n :=
      Nat.min_le_right _ _
    have h4 : min (min c.length (index - n / 2 + n) - (index - n / 2))
        (c.length - (index - n / 2)) ≤ min c.length (index - n / 2 + n) - (index - n / 2) :=
      Nat.min_le_left _ _
    omega

theorem extractSnippet_length_le (c t : Str) (n : Nat) :
    (extractSnippet c t n).length ≤
      n + 6 + 4 * countOcc (lower t) (lower (snippetWindow c t n)) := by
  unfold extractSnippet
  cases hidx : indexOf? (lower t) (lower c) with
  | none =>
    dsimp only
    have h1 := snippetWindow_length_le c t n
    omega
  | some i =>
    dsimp only
    have h1 := trim_length_le (boldify t (snippetWindow c t n))
    have h2 := boldify_length_le t (snippetWindow c t n)
    have h3 := snippetWindow_length_le c t n
    omega

end Mcp

namespace Mcp

theorem outlinksGo_nodup (v : LinkVault) (src : Str) (incl : Bool) (ml : Nat) :
    ∀ (toks seen : List Str),
      ((outlinksGo v src incl ml toks seen).map RelatedNote.path).Nodup ∧
      ∀ q ∈ seen, q ∉ (outlinksGo v src incl ml toks seen).map RelatedNote.path := by
  intro toks
  induction toks with
  | nil => intro seen; simp [outlinksGo]
  | cons tok rest ih =>
    intro seen
    cases hres : v.resolve tok src with
    | none => simpa [outlinksGo, hres] using ih seen
    | some dest =>
      by_cases hseen : dest ∈ seen
      · simpa [outlinksGo, hres, hseen] using ih seen
      · have ihd := ih (dest :: seen)
        have hunf : outlinksGo v src incl ml (tok :: rest) seen =
            ⟨dest, v.basename dest, if incl then some (getFileSnippet v dest ml) else none⟩ ::
              outlinksGo v src incl ml rest (dest :: seen) := by
          simp [outlinksGo, hres, hseen]
        rw [hunf]
        refine ⟨?_, ?_⟩
        · simp only [List.map_cons, List.nodup_cons]
          exact ⟨ihd.2 dest (by simp), ihd.1⟩
        · intro q hq
          simp only [List.map_cons, List.mem_cons, not_or]
          refine ⟨?_, ihd.2 q (by simp [hq])⟩
          intro hqd
          exact hseen (hqd ▸ hq)

theorem backlinksGo_nodup (v : LinkVault) (target : Str) (incl : Bool) (ml : Nat) :
    ∀ (entries : List (Str × List Str)) (seen : List Str),
      ((backlinksGo v target incl ml entries seen).map RelatedNote.path).Nodup ∧
      ∀ q ∈ seen, q ∉ (backlinksGo v target incl ml entries seen).map RelatedNote.path := by
  intro entries
  induction entries with
  | nil => intro seen; simp [backlinksGo]
  | cons e rest ih =>
    intro seen
    obtain ⟨src, dests⟩ := e
    by_cases h1 : target ∈ dests ∧ src ∉ seen
    · have ihd := ih (src :: seen)
      by_cases h2 : src ∈ v.files
      · have hunf : backlinksGo v target incl ml ((src, dests) :: rest) seen =
            ⟨src, v.basename src, if incl then some (getFileSnippet v src ml) else none⟩ ::
              backlinksGo v target incl ml rest (src :: seen) := by
          simp [backlinksGo, h1, h2]
        rw [hunf]
        refine ⟨?_, ?_⟩
        · simp only [List.map_cons, List.nodup_cons]
          exact ⟨ihd.2 src (by simp), ihd.1⟩
        · intro q hq
          simp only [List.map_cons, List.mem_cons, not_or]
          refine ⟨?_, ihd.2 q (by simp [hq])⟩
          intro hqd
          exact h1.2 (hqd ▸ hq)
      · have hunf : backlinksGo v target incl ml ((src, dests) :: rest) seen =
            backlinksGo v target incl ml rest (src :: seen) := by
          simp [backlinksGo, h1, h2]
        rw [hunf]
        exact ⟨ihd.1, fun q hq => ihd.2 q (by simp [hq])⟩
    · have hunf : backlinksGo v target incl ml ((src, dests) :: rest) seen =
          backlinksGo v target incl ml rest seen := by
        simp [backlinksGo, h1]
      rw [hunf]
      exact ih seen

theorem getOutlinks_paths_nodup (v : LinkVault) (p : Str) (incl : Bool) (ml : Nat) :
    ((getOutlinks v p incl ml).map RelatedNote.path).Nodup :=
  (outlinksGo_nodup v p incl ml (v.cacheLinks p) []).1

theorem getBacklinks_paths_nodup (v : LinkVault) (p : Str) (incl : Bool) (ml : Nat) :
    ((getBacklinks v p incl ml).map RelatedNote.path).Nodup :=
  (backlinksGo_nodup v p incl ml v.resolvedLinks []).1

theorem tlStep_spec (v : LinkVault) (dir : Direction) (incl : Bool) (ml : Nat) :
    ∀ (sp visited : List Str),
      (∀ q ∈ visited, q ∈ (tlStep v dir incl ml sp visited).2.2) ∧
      (visited.Nodup → (tlStep v dir incl ml sp visited).2.2.Nodup) ∧
      (∀ q ∈ visited, q ∉ (tlStep v dir incl ml sp visited).1.map RelatedNote.path) := by
  intro sp
  induction sp with
  | nil => intro visited; simp [tlStep]
  | cons p rest ih =>
    intro visited
    by_cases hv : p ∈ visited
    · simpa [tlStep, hv] using ih visited
    · have ihv := ih (p :: visited)
      have hunf : tlStep v dir incl ml (p :: rest) visited =
          ((neighborLinks v dir incl ml p).filter (fun l => decide (l.path ∉ p :: visited)) ++
            (tlStep v dir incl ml rest (p :: visited)).1,
           ((neighborLinks v dir incl ml p).filter
              (fun l => decide (l.path ∉ p :: visited))).map RelatedNote.path ++
            (tlStep v dir incl ml rest (p :: visited)).2.1,
           (tlStep v dir incl ml rest (p :: visited)).2.2) := by
        simp only [tlStep]
        rw [if_neg hv]
      rw [hunf]
      refine ⟨?_, ?_, ?_⟩
      · intro q hq
        exact ihv.1 q (by simp [hq])
      · intro hnd
        exact ihv.2.1 (by simp [List.nodup_cons, hv, hnd])
      · intro q hq
        simp only [List.map_append, List.mem_append, not_or]
        refine ⟨?_, ihv.2.2 q (by simp [hq])⟩
        intro hmem
        simp only [List.mem_map] at hmem
        obtain ⟨l, hl, hlp⟩ := hmem
        rw [List.mem_filter] at hl
        have hnv := hl.2
        simp only [decide_eq_true_eq] at hnv
        exact hnv (hlp ▸ (by simp [hq] : q ∈ p :: visited))

theorem gtl_spec (v : LinkVault) (dir : Direction) (incl : Bool) (ml : Nat) :
    ∀ (d : Nat) (sp visited : List Str),
      (∀ q ∈ visited, q ∈ (getTransitiveLinks v dir incl ml d sp visited).2) ∧
      (visited.Nodup → (getTransitiveLinks v dir incl ml d sp visited).2.Nodup) ∧
      (∀ q ∈ visited,
        q ∉ (getTransitiveLinks v dir incl ml d sp visited).1.map RelatedNote.path) := by
  intro d
  induction d with
  | zero => intro sp visited; simp [getTransitiveLinks]
  | succ d ih =>
    intro sp visited
    by_cases hsp : sp.isEmpty = true
    · simp [getTransitiveLinks, hsp]
    · have hstep := tlStep_spec v dir incl ml sp visited
      by_cases hd : 0 < d
      · have ihs := ih (tlStep v dir incl ml sp visited).2.1 (tlStep v dir incl ml sp visited).2.2
        have hunf : getTransitiveLinks v dir incl ml (d + 1) sp visited =
            ((tlStep v dir incl ml sp visited).1 ++
              (getTransitiveLinks v dir incl ml d (tlStep v dir incl ml sp visited).2.1
                (tlStep v dir incl ml sp visited).2.2).1,
             (getTransitiveLinks v dir incl ml d (tlStep v dir incl ml sp visited).2.1
                (tlStep v dir incl ml sp visited).2.2).2) := by
          simp only [getTransitiveLinks]
          rw [if_neg hsp, if_pos hd]
        rw [hunf]
        refine ⟨?_, ?_, ?_⟩
        · intro q hq
          exact ihs.1 q (hstep.1 q hq)
        · intro hnd
          exact ihs.2.1 (hstep.2.1 hnd)
        · intro q hq
          simp only [List.map_append, List.mem_append, not_or]
          exact ⟨hstep.2.2 q hq, ihs.2.2 q (hstep.1 q hq)⟩
      · have hunf : getTransitiveLinks v dir incl ml (d + 1) sp visited =
            ((tlStep v dir incl ml sp visited).1, (tlStep v dir incl ml sp visited).2.2) := by
          simp only [getTransitiveLinks]
          rw [if_neg hsp, if_neg hd]
        rw [hunf]
        exact ⟨hstep.1, hstep.2.1, hstep.2.2⟩

end Mcp

namespace Mcp

/-- Claim C1 (corrected).  The single visited set is seeded with only the
origin path, so for every link table, origin and accepted depth the origin
path never reappears in transitive_outlinks or transitive_backlinks, and each
direct list is duplicate-free on its own; the original global-uniqueness claim
fails because direct neighbors are not pre-seeded into the visited set. -/
theorem C1_traversal_no_revisit (v : LinkVault) (p : Str) (opts : GRNOptions)
    (r : RelatedResponse) (h : getRelatedNotes v p opts = .ok r) :
    p ∉ r.transitive_outlinks.map RelatedNote.path ∧
    p ∉ r.transitive_backlinks.map RelatedNote.path ∧
    (r.direct_outlinks.map RelatedNote.path).Nodup ∧
    (r.direct_backlinks.map RelatedNote.path).Nodup := by
  unfold getRelatedNotes at h
  split_ifs at h with h1 h2 h3 h4 h5
  · rw [Except.ok.injEq] at h
    subst h
    refine ⟨?_, ?_, ?_, ?_⟩
    · exact ((gtl_spec v .out opts.include_snippets opts.max_snippet_length)
        (opts.depth - 1)
        ((getOutlinks v p opts.include_snippets opts.max_snippet_length).map
          RelatedNote.path) [p]).2.2 p (by simp)
    · have hmem : p ∈ (getTransitiveLinks v .out opts.include_snippets
          opts.max_snippet_length (opts.depth - 1)
          ((getOutlinks v p opts.include_snippets opts.max_snippet_length).map
            RelatedNote.path) [p]).2 :=
        ((gtl_spec v .out opts.include_snippets opts.max_snippet_length)
          (opts.depth - 1)
          ((getOutlinks v p opts.include_snippets opts.max_snippet_length).map
            RelatedNote.path) [p]).1 p (by simp)
      exact ((gtl_spec v .back opts.include_snippets opts.max_snippet_length)
        (opts.depth - 1)
        ((getBacklinks v p opts.include_snippets opts.max_snippet_length).map
          RelatedNote.path) _).2.2 p hmem
    · exact getOutlinks_paths_nodup v p _ _
    · exact getBacklinks_paths_nodup v p _ _
  · rw [Except.ok.injEq] at h
    subst h
    exact ⟨by simp, by simp,
      getOutlinks_paths_nodup v p _ _, getBacklinks_paths_nodup v p _ _⟩

/-- Witness for C1 on a concrete vault where getRelatedNotes succeeds at
depth 2. -/
theorem C1_traversal_no_revisit_witness :
    getRelatedNotes vDup (toL "o.md") ⟨2, false, 150⟩ = .ok rDup ∧
    ((toL "o.md") ∉ rDup.transitive_outlinks.map RelatedNote.path ∧
     (toL "o.md") ∉ rDup.transitive_backlinks.map RelatedNote.path ∧
     (rDup.direct_outlinks.map RelatedNote.path).Nodup ∧
     (rDup.direct_backlinks.map RelatedNote.path).Nodup) :=
  ⟨by decide, C1_traversal_no_revisit vDup (toL "o.md") ⟨2, false, 150⟩ rDup (by decide)⟩

/-- Counterexample to C1 as stated: at depth 2 on vDup the note b.md appears
both in direct_outlinks and in transitive_outlinks, so the union of the five
path sets holds a path twice. -/
theorem C1_counterexample :
    getRelatedNotes vDup (toL "o.md") ⟨2, false, 150⟩ = .ok rDup ∧
    ¬ (allPathsResp rDup).Nodup := by
  decide

/-- Claim C2 (corrected).  The direct outlink and backlink lists are each
duplicate-free; the original claim fails because a self-linking note lists
itself as a direct neighbor (the seen set of getOutlinks is not seeded with
the origin). -/
theorem C2_direct_lists_nodup (v : LinkVault) (p : Str) (incl : Bool) (ml : Nat) :
    ((getOutlinks v p incl ml).map RelatedNote.path).Nodup ∧
    ((getBacklinks v p incl ml).map RelatedNote.path).Nodup :=
  ⟨getOutlinks_paths_nodup v p incl ml, getBacklinks_paths_nodup v p incl ml⟩

/-- Counterexample to C2 as stated: on the self-loop vault the origin path is
a member of its own direct_outlinks, which in particular are not empty. -/
theorem C2_counterexample :
    getRelatedNotes vSelf (toL "a.md") ⟨1, false, 150⟩ = .ok rSelf ∧
    (toL "a.md") ∈ rSelf.direct_outlinks.map RelatedNote.path ∧
    rSelf.direct_outlinks ≠ [] := by
  decide

/-- Claim C5 (confirmed).  The transitive expansion is total by structural
recursion on remainingDepth (mirroring the strictly decreasing counter of the
source); the shared visited set only ever grows, never acquires a duplicate -
each path is visited at most once - and zero remaining depth does no work. -/
theorem C5_transitive_terminates (v : LinkVault) (dir : Direction) (incl : Bool)
    (ml : Nat) (d : Nat) (sp visited : List Str) (h : visited.Nodup) :
    ((getTransitiveLinks v dir incl ml d sp visited).2.Nodup ∧
      ∀ q ∈ visited, q ∈ (getTransitiveLinks v dir incl ml d sp visited).2) ∧
    getTransitiveLinks v dir incl ml 0 sp visited = ([], visited) :=
  ⟨⟨((gtl_spec v dir incl ml) d sp visited).2.1 h,
    ((gtl_spec v dir incl ml) d sp visited).1⟩, rfl⟩

/-- Witness for C5 on the self-loop vault at depth 2. -/
theorem C5_transitive_terminates_witness :
    ([toL "a.md"] : List Str).Nodup ∧
    (((getTransitiveLinks vSelf .out false 150 2 [toL "a.md"] [toL "a.md"]).2.Nodup ∧
      ∀ q ∈ [toL "a.md"],
        q ∈ (getTransitiveLinks vSelf .out false 150 2 [toL "a.md"] [toL "a.md"]).2) ∧
     getTransitiveLinks vSelf .out false 150 0 [toL "a.md"] [toL "a.md"] =
       ([], [toL "a.md"])) :=
  ⟨by decide,
    C5_transitive_terminates vSelf .out false 150 2 [toL "a.md"] [toL "a.md"] (by decide)⟩

end Mcp

namespace Mcp

/-- Claim C3 (corrected).  The ellipsis-decorated window is at most
maxLength + 6 characters, but highlighting adds four marker characters per
case-insensitive occurrence of the term inside the window, so the returned
string is only bounded by maxLength + 6 + 4 times that occurrence count. -/
theorem C3_snippet_length_bound (c t : Str) (n : Nat) :
    (extractSnippet c t n).length ≤
      n + 6 + 4 * countOcc (lower t) (lower (snippetWindow c t n)) ∧
    (snippetWindow c t n).length ≤ n + 6 :=
  ⟨extractSnippet_length_le c t n, snippetWindow_length_le c t n⟩

/-- Counterexample to C3 as stated: a six-character content consisting of two
copies of the term yields a fourteen-character snippet, above the claimed
bound of twelve. -/
theorem C3_counterexample :
    ¬ ((extractSnippet (toL "abcabc") (toL "abc") 6).length ≤ 6 + 6) := by
  decide

/-- A text the frontmatter regex does not match is returned unchanged by
removeFrontmatter. -/
theorem removeFrontmatter_no_match (s : Str) (h : hasFrontmatter s = false) :
    removeFrontmatter s = s := by
  unfold hasFrontmatter at h
  unfold removeFrontmatter
  by_cases hp : isPrefixB (toL "---\n") s = true
  · rw [hp, Bool.true_and] at h
    have hnone : indexOf? (toL "\n---\n") (s.drop 4) = none := by
      cases hidx : indexOf? (toL "\n---\n") (s.drop 4) with
      | none => rfl
      | some j => rw [hidx] at h; simp at h
    rw [if_pos hp, hnone]
  · rw [if_neg hp]

/-- Claim C6 (corrected).  Re-applying removeFrontmatter is a no-op exactly
when the stripped text does not itself start with a frontmatter-shaped block;
full idempotence fails because a text with two consecutive blocks loses one
block per application. -/
theorem C6_removeFrontmatter_conditionally_idempotent (t : Str)
    (h : hasFrontmatter (removeFrontmatter t) = false) :
    removeFrontmatter (removeFrontmatter t) = removeFrontmatter t :=
  removeFrontmatter_no_match (removeFrontmatter t) h

/-- Witness for C6 on a note with a single frontmatter block. -/
theorem C6_removeFrontmatter_witness :
    hasFrontmatter (removeFrontmatter (toL "---\na\n---\nrest")) = false ∧
    removeFrontmatter (removeFrontmatter (toL "---\na\n---\nrest")) =
      removeFrontmatter (toL "---\na\n---\nrest") :=
  ⟨by decide,
    C6_removeFrontmatter_conditionally_idempotent (toL "---\na\n---\nrest") (by decide)⟩

/-- Counterexample to C6 as stated: on a text with two consecutive
frontmatter blocks the second application strips again. -/
theorem C6_counterexample :
    removeFrontmatter (removeFrontmatter (toL "---\na\n---\n---\nb\n---\nx")) ≠
      removeFrontmatter (toL "---\na\n---\n---\nb\n---\nx") := by
  decide

/-- Claim C7 (corrected).  Appending at the start with ensured newline writes
the new content, then a blank line of exactly two newline characters, then
the old content - so the note starts with the new content and ends with the
old, but the separator is two newlines, not one. -/
theorem C7_append_start_blank_line (fs : FS) (path current content : Str)
    (hp : path ≠ []) (hc : content ≠ []) (hv : validatePath path = true)
    (hf : lookupFS fs path = some (.file current)) :
    (appendToNote fs path content ⟨.start, true⟩).2 =
      writeFS fs path (content ++ toL "\n\n" ++ current) ∧
    (appendToNote fs path content ⟨.start, true⟩).1 =
      .ok ⟨path, content.length, current.length,
        (content ++ toL "\n\n" ++ current).length⟩ := by
  have hpe : path.isEmpty = false := by cases path <;> simp_all
  have hce : content.isEmpty = false := by cases content <;> simp_all
  have hsp : spliceContent current content .start true = content ++ toL "\n\n" ++ current := by
    simp [spliceContent]
  constructor
  · simp [appendToNote, hpe, hce, hv, hf, hsp]
  · simp [appendToNote, hpe, hce, hv, hf, hsp]

/-- Witness for C7 on the concrete baz note. -/
theorem C7_append_start_blank_line_witness :
    ((toL "n.md" : Str) ≠ [] ∧ (toL "bar" : Str) ≠ [] ∧
      validatePath (toL "n.md") = true ∧
      lookupFS fsBaz (toL "n.md") = some (.file (toL "baz"))) ∧
    ((appendToNote fsBaz (toL "n.md") (toL "bar") ⟨.start, true⟩).2 =
      writeFS fsBaz (toL "n.md") (toL "bar" ++ toL "\n\n" ++ toL "baz") ∧
    (appendToNote fsBaz (toL "n.md") (toL "bar") ⟨.start, true⟩).1 =
      .ok ⟨toL "n.md", (toL "bar").length, (toL "baz").length,
        (toL "bar" ++ toL "\n\n" ++ toL "baz").length⟩) :=
  ⟨⟨by decide, by decide, by decide, by decide⟩,
    C7_append_start_blank_line fsBaz (toL "n.md") (toL "baz") (toL "bar")
      (by decide) (by decide) (by decide) (by decide)⟩

/-- Counterexample to C7 as stated: the written content is bar, blank line,
baz, which contains two newline characters, not exactly one. -/
theorem C7_counterexample :
    lookupFS (appendToNote fsBaz (toL "n.md") (toL "bar") ⟨.start, true⟩).2 (toL "n.md") =
      some (.file (toL "bar\n\nbaz")) ∧
    ¬ ((toL "bar\n\nbaz").count '\n' = 1) := by
  decide

/-- Claim C10 (confirmed).  An empty content string is falsy, so appendToNote
rejects it (or an empty path) with MISSING_PARAMETER before touching the
vault, which is returned unchanged; createNote only null-checks content and
therefore never reports MISSING_PARAMETER when given a nonempty filename,
even with empty content. -/
theorem C10_empty_content_append_rejected (fs : FS) (path : Str) (opts : AppendOpts)
    (fs2 : FS) (fn : Str) (copts : CreateOpts) (hfn : fn ≠ []) :
    errCodeOf (appendToNote fs path [] opts).1 = some .MISSING_PARAMETER ∧
    (appendToNote fs path [] opts).2 = fs ∧
    errCodeOf (createNote fs2 fn [] copts).1 ≠ some .MISSING_PARAMETER := by
  have hfe : fn.isEmpty = false := by cases fn <;> simp_all
  refine ⟨?_, ?_, ?_⟩
  · by_cases hp : path.isEmpty = true
    · simp [appendToNote, hp, errCodeOf]
    · simp [appendToNote, hp, errCodeOf]
  · by_cases hp : path.isEmpty = true
    · simp [appendToNote, hp]
    · simp [appendToNote, hp]
  · unfold createNote
    rw [hfe]
    simp only [Bool.false_eq_true, if_false]
    split
    · simp [errCodeOf]
    · split
      · split
        · simp [errCodeOf]
        · split
          · simp [errCodeOf]
          · simp [errCodeOf]
      · split
        · simp [errCodeOf]
        · split
          · simp [errCodeOf]
          · simp [errCodeOf]
          · simp [errCodeOf]

/-- Witness for C10 at a concrete nonempty filename. -/
theorem C10_empty_content_append_rejected_witness :
    ((toL "foo" : Str) ≠ []) ∧
    (errCodeOf (appendToNote fsBaz (toL "n.md") [] ⟨.endPos, true⟩).1 =
        some .MISSING_PARAMETER ∧
      (appendToNote fsBaz (toL "n.md") [] ⟨.endPos, true⟩).2 = fsBaz ∧
      errCodeOf (createNote fsFoo (toL "foo") [] ⟨[], false⟩).1 ≠
        some .MISSING_PARAMETER) :=
  ⟨by decide,
    C10_empty_content_append_rejected fsBaz (toL "n.md") ⟨.endPos, true⟩
      fsFoo (toL "foo") ⟨[], false⟩ (by decide)⟩

end Mcp

namespace Mcp

theorem isPrefixB_iff (n h : Str) : isPrefixB n h = true ↔ n <+: h := by
  induction n generalizing h with
  | nil => simp [isPrefixB]
  | cons a as ih =>
    cases h with
    | nil => simp [isPrefixB]
    | cons b bs =>
      simp only [isPrefixB, Bool.and_eq_true, beq_iff_eq, ih bs]
      constructor
      · rintro ⟨rfl, hp⟩
        exact (List.cons_prefix_cons).mpr ⟨rfl, hp⟩
      · intro hp
        have := (List.cons_prefix_cons).mp hp
        exact ⟨this.1, this.2⟩

theorem containsB_iff (hay needle : Str) : containsB hay needle = true ↔ needle <:+: hay := by
  induction hay with
  | nil =>
    unfold containsB
    have hu : indexOf? needle [] = if needle.isEmpty then some 0 else none := rfl
    rw [hu]
    cases needle with
    | nil => simp
    | cons a as => simp [List.infix_nil]
  | cons h t ih =>
    unfold containsB at ih ⊢
    have hu : indexOf? needle (h :: t) =
        if isPrefixB needle (h :: t) then some 0 else (indexOf? needle t).map (· + 1) := rfl
    rw [List.infix_cons_iff, ← isPrefixB_iff, ← ih, hu]
    by_cases hp : isPrefixB needle (h :: t) = true
    · simp [hp]
    · simp only [hp, if_false, Bool.false_eq_true]
      cases hidx : indexOf? needle t <;> simp [hidx, hp]

theorem splitP_spec (p : Char → Bool) :
    ∀ s : Str, ∃ w0 ws, splitP p s = w0 :: ws ∧ w0 <+: s ∧ ∀ w ∈ ws, w <:+: s := by
  intro s
  induction s with
  | nil => exact ⟨[], [], rfl, List.nil_prefix, by simp⟩
  | cons h t ih =>
    obtain ⟨w0, ws, heq, hw0, hws⟩ := ih
    by_cases hp : p h = true
    · refine ⟨[], splitP p t, by simp [splitP, hp], List.nil_prefix, ?_⟩
      intro w hw
      rw [heq] at hw
      rcases List.mem_cons.mp hw with rfl | hmem
      · exact List.infix_cons hw0.isInfix
      · exact List.infix_cons (hws w hmem)
    · refine ⟨h :: w0, ws, ?_, ?_, ?_⟩
      · simp only [splitP, hp, if_false, Bool.false_eq_true, heq]
      · exact (List.cons_prefix_cons).mpr ⟨rfl, hw0⟩
      · intro w hw
        exact List.infix_cons (hws w hw)

theorem word_tier_dead (titleLower queryLower : Str) (p : Char → Bool)
    (hnc : ¬ containsB titleLower queryLower = true) :
    ¬ (splitP p titleLower).any (fun w => containsB w queryLower) = true := by
  intro hany
  rcases List.any_eq_true.mp hany with ⟨w, hwmem, hwc⟩
  have hq : queryLower <:+: w := (containsB_iff w queryLower).mp hwc
  obtain ⟨w0, ws, heq, hw0, hws⟩ := splitP_spec p titleLower
  rw [heq] at hwmem
  have hwt : w <:+: titleLower := by
    rcases List.mem_cons.mp hwmem with rfl | hmem
    · exact hw0.isInfix
    · exact hws w hmem
  exact hnc ((containsB_iff titleLower queryLower).mpr (hq.trans hwt))

theorem noteScore_eq_specScore (b c q : Str) : noteScore b c q = specScore b c q := by
  unfold noteScore specScore titleTierScore
  have hcontent : (if 0 < countOcc (lower q) (lower c) then
      min (countOcc (lower q) (lower c) * 5) 50 else 0) =
      min (countOcc (lower q) (lower c) * 5) 50 := by
    by_cases h : 0 < countOcc (lower q) (lower c)
    · rw [if_pos h]
    · rw [if_neg h]
      have : countOcc (lower q) (lower c) = 0 := by omega
      simp [this]
  rw [hcontent]
  by_cases h1 : lower b = lower q
  · rw [if_pos h1, if_pos h1]
  · rw [if_neg h1, if_neg h1]
    by_cases h2 : containsB (lower b) (lower q) = true
    · rw [if_pos h2, if_pos h2]
    · rw [if_neg h2, if_neg h2,
        if_neg (word_tier_dead (lower b) (lower q) (fun ch => ch == ' ') h2),
        if_neg (word_tier_dead (lower b) (lower q) isJSWhite h2)]

theorem mem_insertKeyDesc (key : SearchResult → Nat) (x : SearchResult) :
    ∀ (l : List SearchResult) (y : SearchResult), y ∈ insertKeyDesc key x l → y = x ∨ y ∈ l := by
  intro l
  induction l with
  | nil => intro y hy; simp [insertKeyDesc] at hy; exact Or.inl hy
  | cons z zs ih =>
    intro y hy
    unfold insertKeyDesc at hy
    by_cases hz : key z ≤ key x
    · rw [if_pos hz] at hy
      rcases List.mem_cons.mp hy with rfl | hmem
      · exact Or.inl rfl
      · exact Or.inr hmem
    · rw [if_neg hz] at hy
      rcases List.mem_cons.mp hy with rfl | hmem
      · exact Or.inr (List.mem_cons_self _ _)
      · rcases ih y hmem with rfl | hmem2
        · exact Or.inl rfl
        · exact Or.inr (List.mem_cons_of_mem _ hmem2)

theorem insertKeyDesc_pairwise (key : SearchResult → Nat) (x : SearchResult)
    (l : List SearchResult) (h : l.Pairwise (fun a b => key b ≤ key a)) :
    (insertKeyDesc key x l).Pairwise (fun a b => key b ≤ key a) := by
  induction l with
  | nil => simp [insertKeyDesc]
  | cons z zs ih =>
    rcases List.pairwise_cons.mp h with ⟨hz, hzs⟩
    unfold insertKeyDesc
    by_cases hc : key z ≤ key x
    · rw [if_pos hc]
      refine List.pairwise_cons.mpr ⟨?_, h⟩
      intro y hy
      rcases List.mem_cons.mp hy with rfl | hmem
      · exact hc
      · exact Nat.le_trans (hz y hmem) hc
    · rw [if_neg hc]
      refine List.pairwise_cons.mpr ⟨?_, ih hzs⟩
      intro y hy
      rcases mem_insertKeyDesc key x zs y hy with rfl | hmem
      · exact Nat.le_of_not_le hc
      · exact hz y hmem

theorem sortByKeyDesc_pairwise (key : SearchResult → Nat) :
    ∀ l : List SearchResult,
      (sortByKeyDesc key l).Pairwise (fun a b => key b ≤ key a) := by
  intro l
  induction l with
  | nil => simp [sortByKeyDesc]
  | cons x xs ih => exact insertKeyDesc_pairwise key x _ ih

/-- Claim C4 (confirmed).  The computed relevance score equals the formula of
the specification (title tier plus capped occurrence bonus - the
whitespace-word tier is stated with whitespace splitting and the source uses
space splitting, but both tiers are unreachable, so the formulas agree); for
equal occurrence counts an exact-title note scores strictly above a
substring-title note, which scores strictly above a content-only note, and
relevance sorting arranges results in descending score order. -/
theorem C4_relevance_scoring :
    (∀ b c q : Str, noteScore b c q = specScore b c q) ∧
    (∀ q t1 c1 t2 c2 t3 c3 : Str,
      lower t1 = lower q →
      lower t2 ≠ lower q →
      containsB (lower t2) (lower q) = true →
      titleTierScore (lower t3) (lower q) = 0 →
      countOcc (lower q) (lower c1) = countOcc (lower q) (lower c3) →
      countOcc (lower q) (lower c2) = countOcc (lower q) (lower c3) →
      noteScore t1 c1 q > noteScore t2 c2 q ∧ noteScore t2 c2 q > noteScore t3 c3 q) ∧
    (∀ l : List SearchResult,
      (sortByKeyDesc (fun r => r.score) l).Pairwise (fun a b => b.score ≤ a.score)) := by
  refine ⟨noteScore_eq_specScore, ?_, sortByKeyDesc_pairwise (fun r => r.score)⟩
  intro q t1 c1 t2 c2 t3 c3 h1 h2 h2b h3 hc1 hc2
  unfold noteScore
  rw [show titleTierScore (lower t1) (lower q) = 100 from by
      unfold titleTierScore; rw [if_pos h1],
    show titleTierScore (lower t2) (lower q) = 50 from by
      unfold titleTierScore; rw [if_neg h2, if_pos h2b],
    h3, hc1, hc2]
  by_cases h : 0 < countOcc (lower q) (lower c3)
  · rw [if_pos h]; omega
  · rw [if_neg h]; omega

/-- Witness for C4 at concrete titles and contents. -/
theorem C4_relevance_scoring_witness :
    (lower (toL "a") = lower (toL "a") ∧
     lower (toL "ab") ≠ lower (toL "a") ∧
     containsB (lower (toL "ab")) (lower (toL "a")) = true ∧
     titleTierScore (lower (toL "x")) (lower (toL "a")) = 0 ∧
     countOcc (lower (toL "a")) (lower (toL "a")) =
       countOcc (lower (toL "a")) (lower (toL "a")) ∧
     countOcc (lower (toL "a")) (lower (toL "a")) =
       countOcc (lower (toL "a")) (lower (toL "a"))) ∧
    (noteScore (toL "a") (toL "a") (toL "a") > noteScore (toL "ab") (toL "a") (toL "a") ∧
     noteScore (toL "ab") (toL "a") (toL "a") > noteScore (toL "x") (toL "a") (toL "a")) :=
  ⟨⟨by decide, by decide, by decide, by decide, rfl, rfl⟩,
    C4_relevance_scoring.2.1 (toL "a") (toL "a") (toL "a") (toL "ab") (toL "a")
      (toL "x") (toL "a") (by decide) (by decide) (by decide) (by decide) rfl rfl⟩

end Mcp

namespace Mcp

theorem isSuffixB_iff (n h : Str) : isSuffixB n h = true ↔ n <:+ h := by
  unfold isSuffixB
  rw [isPrefixB_iff]
  exact List.reverse_prefix

theorem normalizeFilename_md (fn : Str) : ∃ s, normalizeFilename fn = s ++ toL ".md" := by
  unfold normalizeFilename
  by_cases h : isSuffixB (toL ".md") fn = true
  · rw [if_pos h]
    obtain ⟨s, hs⟩ := (isSuffixB_iff _ _).mp h
    exact ⟨s, hs.symm⟩
  · rw [if_neg h]
    exact ⟨fn, rfl⟩

theorem composeFullPath_md (folder fn : Str) :
    ∃ s, composeFullPath folder fn = s ++ toL ".md" := by
  unfold composeFullPath
  obtain ⟨s, hs⟩ := normalizeFilename_md fn
  by_cases h : folder.isEmpty = true
  · rw [if_pos h]
    exact ⟨s, hs⟩
  · rw [if_neg h, hs]
    exact ⟨stripTrailingSlash folder ++ '/' :: s, by simp⟩

theorem suffix_md_not_empty (p s : Str) (h : p = s ++ toL ".md") : p.isEmpty = false := by
  subst h
  cases s <;> rfl

theorem extensionOf_md (s : Str) : extensionOf (s ++ toL ".md") = toL "md" := by
  unfold extensionOf
  have h1 : (s ++ toL ".md").reverse = 'd' :: 'm' :: '.' :: s.reverse := by
    rw [List.reverse_append]
    rfl
  rw [h1]
  have h2 : ('d' :: 'm' :: '.' :: s.reverse).takeWhile (fun c => c != '/') =
      'd' :: 'm' :: '.' :: s.reverse.takeWhile (fun c => c != '/') := rfl
  rw [h2]
  have h3 : ('d' :: 'm' :: '.' :: s.reverse.takeWhile (fun c => c != '/')).reverse.contains '.' =
      true := by
    have hmem : ('.' : Char) ∈
        ('d' :: 'm' :: '.' :: s.reverse.takeWhile (fun c => c != '/')).reverse := by
      rw [List.mem_reverse]
      simp
    simp only [List.contains]
    exact List.elem_eq_true_of_mem hmem
  rw [if_pos h3, List.reverse_reverse]
  rfl

theorem lookupFS_writeFS_same (fs : FS) (p c : Str) (e : FsEntry)
    (h : lookupFS fs p = some e) : lookupFS (writeFS fs p c) p = some (.file c) := by
  induction fs with
  | nil => simp [lookupFS] at h
  | cons entry rest ih =>
    obtain ⟨q, e'⟩ := entry
    have hw : writeFS ((q, e') :: rest) p c =
        (if q = p then (p, FsEntry.file c) else (q, e')) :: writeFS rest p c := rfl
    by_cases hq : q = p
    · rw [hw, if_pos hq]
      have hl : lookupFS ((p, FsEntry.file c) :: writeFS rest p c) p =
          if p = p then some (FsEntry.file c) else lookupFS (writeFS rest p c) p := rfl
      rw [hl, if_pos rfl]
    · rw [hw, if_neg hq]
      have h' : lookupFS rest p = some e := by
        have hl0 : lookupFS ((q, e') :: rest) p =
            if q = p then some e' else lookupFS rest p := rfl
        rw [hl0, if_neg hq] at h
        exact h
      have hl : lookupFS ((q, e') :: writeFS rest p c) p =
          if q = p then some e' else lookupFS (writeFS rest p c) p := rfl
      rw [hl, if_neg hq]
      exact ih h'

/-- Claim C8 (confirmed).  When the composed path already exists, createNote
without overwrite fails with FILE_EXISTS leaving the vault unchanged; with
overwrite on a file it replaces the content and a subsequent getNote of the
path returns the new content (for content without a frontmatter block and
within the size limit, as in the example of the specification); with
overwrite on a folder it fails with PATH_IS_FOLDER leaving the vault
unchanged. -/
theorem C8_create_note_exists (fs : FS) (fn content folder : Str) (e : FsEntry)
    (hfn : fn ≠ [])
    (hval : validatePath (composeFullPath folder fn) = true)
    (hex : lookupFS fs (composeFullPath folder fn) = some e) :
    createNote fs fn content ⟨folder, false⟩ =
      (.error ⟨.FILE_EXISTS, toL "File already exists"⟩, fs) ∧
    (∀ old, e = .file old →
      createNote fs fn content ⟨folder, true⟩ =
        (.ok ⟨composeFullPath folder fn, content.length, true⟩,
          writeFS fs (composeFullPath folder fn) content) ∧
      (removeFrontmatter content = content → content.length ≤ 50000 →
        getNote (writeFS fs (composeFullPath folder fn) content)
            (composeFullPath folder fn) ⟨false, 50000⟩ =
          .ok ⟨composeFullPath folder fn, content, false⟩)) ∧
    (e = .folder →
      createNote fs fn content ⟨folder, true⟩ =
        (.error ⟨.PATH_IS_FOLDER, toL "Path exists but is a folder"⟩, fs)) := by
  have hfe : fn.isEmpty = false := by cases fn <;> simp_all
  refine ⟨?_, ?_, ?_⟩
  · simp [createNote, hfe, hval, hex]
  · rintro old rfl
    constructor
    · simp [createNote, hfe, hval, hex]
    · intro hrf hlen
      obtain ⟨s, hs⟩ := composeFullPath_md folder fn
      have hne : (composeFullPath folder fn).isEmpty = false := suffix_md_not_empty _ s hs
      have hext : extensionOf (composeFullPath folder fn) = toL "md" := by
        rw [hs]
        exact extensionOf_md s
      have hlook := lookupFS_writeFS_same fs (composeFullPath folder fn) content _ hex
      have htxt : textExtensions.contains (lower (toL "md")) = true := by decide
      have htxt2 : lower (toL "md") ∈ textExtensions := by decide
      have hnlt : ¬ (50000 < content.length) := Nat.not_lt.mpr hlen
      simp [getNote, hne, hval, hlook, hext, hrf, htxt, htxt2, hnlt]
  · rintro rfl
    simp [createNote, hfe, hval, hex]

/-- Witness for C8 on a concrete vault where foo.md already exists as a
file. -/
theorem C8_create_note_exists_witness :
    ((toL "foo" : Str) ≠ [] ∧
      validatePath (composeFullPath [] (toL "foo")) = true ∧
      lookupFS fsFoo (composeFullPath [] (toL "foo")) = some (.file (toL "x"))) ∧
    (createNote fsFoo (toL "foo") (toL "y") ⟨[], false⟩ =
      (.error ⟨.FILE_EXISTS, toL "File already exists"⟩, fsFoo) ∧
    (∀ old, FsEntry.file (toL "x") = .file old →
      createNote fsFoo (toL "foo") (toL "y") ⟨[], true⟩ =
        (.ok ⟨composeFullPath [] (toL "foo"), (toL "y").length, true⟩,
          writeFS fsFoo (composeFullPath [] (toL "foo")) (toL "y")) ∧
      (removeFrontmatter (toL "y") = toL "y" → (toL "y").length ≤ 50000 →
        getNote (writeFS fsFoo (composeFullPath [] (toL "foo")) (toL "y"))
            (composeFullPath [] (toL "foo")) ⟨false, 50000⟩ =
          .ok ⟨composeFullPath [] (toL "foo"), toL "y", false⟩)) ∧
    (FsEntry.file (toL "x") = .folder →
      createNote fsFoo (toL "foo") (toL "y") ⟨[], true⟩ =
        (.error ⟨.PATH_IS_FOLDER, toL "Path exists but is a folder"⟩, fsFoo))) :=
  ⟨⟨by decide, by decide, by decide⟩,
    C8_create_note_exists fsFoo (toL "foo") (toL "y") [] (.file (toL "x"))
      (by decide) (by decide) (by decide)⟩

theorem processFile_read_none (v : SearchVault) (q : Str) (opts : SearchOpts)
    (f : MDFile) (h : v.read f.path = none) : processFile v q opts f = none := by
  unfold processFile
  by_cases h1 : (!opts.folder.isEmpty && !isPrefixB opts.folder f.path) = true
  · rw [if_pos h1]
  · rw [if_neg h1]
    by_cases h2 : (!opts.tag.isEmpty && !((v.tags f.path).any fun t =>
        t == (if isPrefixB (toL "#") opts.tag then opts.tag else '#' :: opts.tag) ||
        t == opts.tag || t == '#' :: opts.tag)) = true
    · rw [if_pos h2]
    · rw [if_neg h2]
      simp [h]

/-- Claim C9 (confirmed).  A note whose read fails is skipped by searchNotes:
it contributes nothing to the results or to total_matches and the whole
response is exactly as if the note were absent, while the search still
succeeds; and a traversal snippet read failure yields the placeholder string
instead of an error. -/
theorem C9_read_failures_skipped (files1 files2 : List MDFile) (f : MDFile)
    (rd : Str → Option Str) (tg : Str → List Str) (q : Str) (opts : SearchOpts)
    (lv : LinkVault) (p : Str) (n : Nat)
    (hread : rd f.path = none) (hlread : lv.read p = none) (hq : q ≠ []) :
    searchNotes ⟨files1 ++ f :: files2, rd, tg⟩ q opts =
      searchNotes ⟨files1 ++ files2, rd, tg⟩ q opts ∧
    (searchNotes ⟨files1 ++ f :: files2, rd, tg⟩ q opts).isOk = true ∧
    getFileSnippet lv p n = toL "[Error reading file]" := by
  have hqe : q.isEmpty = false := by cases q <;> simp_all
  have hpf : processFile ⟨files1 ++ f :: files2, rd, tg⟩ q opts f = none :=
    processFile_read_none _ q opts f hread
  have hfm : (files1 ++ f :: files2).filterMap
        (processFile ⟨files1 ++ f :: files2, rd, tg⟩ q opts) =
      (files1 ++ files2).filterMap (processFile ⟨files1 ++ files2, rd, tg⟩ q opts) := by
    have heqf : processFile (⟨files1 ++ f :: files2, rd, tg⟩ : SearchVault) q opts =
        processFile (⟨files1 ++ files2, rd, tg⟩ : SearchVault) q opts := rfl
    rw [← heqf]
    simp [List.filterMap_append, List.filterMap_cons, hpf]
  refine ⟨?_, ?_, ?_⟩
  · unfold searchNotes
    simp only [hqe, Bool.false_eq_true, if_false]
    rw [hfm]
  · unfold searchNotes
    simp only [hqe, Bool.false_eq_true, if_false]
    rfl
  · simp [getFileSnippet, hlread]

/-- Witness for C9 with a one-file vault whose only note is unreadable. -/
theorem C9_read_failures_skipped_witness :
    ((fun (_ : Str) => (none : Option Str)) mdX.path = none ∧
      vSelf.read (toL "x.md") = none ∧ (toL "a" : Str) ≠ []) ∧
    (searchNotes ⟨[] ++ mdX :: [], fun _ => none, fun _ => []⟩ (toL "a") ⟨[], [], 10, .relevance⟩ =
      searchNotes ⟨[] ++ [], fun _ => none, fun _ => []⟩ (toL "a") ⟨[], [], 10, .relevance⟩ ∧
    (searchNotes ⟨[] ++ mdX :: [], fun _ => none, fun _ => []⟩ (toL "a")
      ⟨[], [], 10, .relevance⟩).isOk = true ∧
    getFileSnippet vSelf (toL "x.md") 150 = toL "[Error reading file]") :=
  ⟨⟨rfl, rfl, by decide⟩,
    C9_read_failures_skipped [] [] mdX (fun _ => none) (fun _ => [])
      (toL "a") ⟨[], [], 10, .relevance⟩ vSelf (toL "x.md") 150 rfl rfl (by decide)⟩

end Mcp
